import Mathlib

/-!
Verification of the SerenNP manager: a shallow embedding of the probe
library (`internal/poc/manager.go`), the matcher evaluator and the scan
orchestrator (`internal/scanner`), with theorems settling the spec's
claims about them.  Go maps are embedded as functions `String → Option _`,
machine integers as `Nat`, time values as abstract `Nat` stamps, and the
filesystem as an explicit record threaded through the operations.
-/

namespace SerenNP

/-! ## Matcher evaluator (scanner package)

The evaluator receives the HTTP response and the (bounded) body bytes.
Go's `http.Header` is a map whose iteration order is unspecified; we embed
it as an association list and iterate in list order. -/

/-- An HTTP response as seen by `checkMatchers`: the status code and the
header key/value pairs (each value already joined with ", " as
`formatHeaders` does). -/
structure Response where
  statusCode : Nat
  headers : List (String × String)
deriving Repr, DecidableEq

/-- The scanner's `Matcher` struct: tagged type, word / status / regex
value lists, part selector, per-value condition and the negative flag.
The struct has no field for a list-level aggregation condition: the
line-based probe parser never extracts `matchers-condition`. -/
structure Matcher where
  type : String
  words : List String := []
  status : List Nat := []
  regex : List String := []
  part : String := ""
  condition : String := ""
  negative : Bool := false
deriving Repr, DecidableEq

/-- Scan for `pat` as a contiguous segment of the list. -/
def containsAux (pat : List Char) : List Char → Bool
  | [] => pat.isEmpty
  | c :: cs => pat.isPrefixOf (c :: cs) || containsAux pat cs

/-- `strings.Contains`: substring test, embedded over character lists. -/
def strContains (s sub : String) : Bool :=
  containsAux sub.toList s.toList

/-- `formatHeaders`: one "key: value" line per header. -/
def formatHeaders (headers : List (String × String)) : String :=
  headers.foldl (fun acc kv => acc ++ kv.1 ++ ": " ++ kv.2 ++ "\n") ""

/-- `matchRegex`: the source implements the regex matcher as a plain
substring search. -/
def matchRegex (content pat : String) : Bool :=
  strContains content pat

/-- The `part` selector: `header` and `all` pick the corresponding
rendering, everything else (incl. the default "") picks the body. -/
def partContent (part bodyStr headerStr allStr : String) : String :=
  if part = "header" then headerStr else if part = "all" then allStr else bodyStr

/-- Render a word list the way Go's `%v` prints a string slice. -/
def fmtWords (ws : List String) : String :=
  "[" ++ String.intercalate " " ws ++ "]"

/-- The per-matcher `switch` body of `checkMatchers`, before the
`negative` inversion: verdict and evidence string. Unknown types
(including `binary` and `dsl`) yield `(false, "")`. -/
def matcherRaw (m : Matcher) (sc : Nat) (bodyStr headerStr allStr : String) :
    Bool × String :=
  if m.type = "status" then
    match m.status.find? (fun code => sc = code) with
    | some code => (true, "Status: " ++ toString code)
    | none => (false, "")
  else if m.type = "word" then
    let content := partContent m.part bodyStr headerStr allStr
    if m.condition = "and" then
      if m.words.all (fun w => strContains content w) then
        (true, "Words matched: " ++ fmtWords m.words)
      else (false, "")
    else
      match m.words.find? (fun w => strContains content w) with
      | some w => (true, "Word: " ++ w)
      | none => (false, "")
  else if m.type = "regex" then
    let content := partContent m.part bodyStr headerStr allStr
    match m.regex.find? (fun p => matchRegex content p) with
    | some p => (true, "Regex: " ++ p)
    | none => (false, "")
  else (false, "")

/-- A single matcher's final verdict and evidence: the raw verdict with
the `negative` flag applied (the evidence string is computed before the
inversion, exactly as in the source). -/
def matcherEval (m : Matcher) (sc : Nat) (bodyStr headerStr allStr : String) :
    Bool × String :=
  ((if m.negative then !(matcherRaw m sc bodyStr headerStr allStr).1
    else (matcherRaw m sc bodyStr headerStr allStr).1),
   (matcherRaw m sc bodyStr headerStr allStr).2)

/-- A matcher's boolean verdict against a response and body, with the
part renderings derived the same way `checkMatchers` derives them. -/
def matcherVerdict (m : Matcher) (resp : Response) (body : String) : Bool :=
  (matcherEval m resp.statusCode body (formatHeaders resp.headers)
    (formatHeaders resp.headers ++ "\n" ++ body)).1

/-- `checkMatchers`: empty list defaults to "status is 200"; otherwise it
collects the evidence of every passing matcher and reports a match iff
that collection is non-empty.  There is no aggregation condition input:
the function cannot distinguish `and` from `or` lists. -/
def checkMatchers (matchers : List Matcher) (resp : Response) (body : String) :
    Bool × String :=
  if matchers.isEmpty then
    if resp.statusCode = 200 then (true, "Status: " ++ toString resp.statusCode)
    else (false, "")
  else
    let bodyStr := body
    let headerStr := formatHeaders resp.headers
    let allStr := headerStr ++ "\n" ++ bodyStr
    let matchedInfos := matchers.foldl (fun acc m =>
      if (matcherEval m resp.statusCode bodyStr headerStr allStr).1 then
        acc ++ [(matcherEval m resp.statusCode bodyStr headerStr allStr).2]
      else acc) []
    if matchedInfos.isEmpty then (false, "")
    else (true, String.intercalate "; " matchedInfos)

/-- Modelled from the spec: the aggregation the specification describes
for a matcher list carrying a `matchers_condition` — with `and` every
matcher must pass, with `or` any passing matcher suffices, and the empty
list defaults to "status is 200".  Used to compare the code's evaluator
against the specified semantics. -/
def specAggregate (cond : String) (matchers : List Matcher) (resp : Response)
    (body : String) : Bool :=
  if matchers.isEmpty then decide (resp.statusCode = 200)
  else if cond = "and" then matchers.all (fun m => matcherVerdict m resp body)
  else matchers.any (fun m => matcherVerdict m resp body)

/-! ## Scan orchestrator (scanner package)

`runRealScan` mutates the job status only inside `s.mu.Lock()` sections;
`GetStatus` reads under `s.mu.RLock()`.  The observable behaviour is
therefore the sequence of states between those atomic sections, which we
embed as an explicit list of snapshots.  Wall-clock values are abstract
`Nat` stamps; the float64 `Progress` field is not modelled (no claim
touches it). -/

/-- The `models.ScanStatus` record (time values as `Nat`, the zero
`time.Time` of an unfinished job as `none`). -/
structure ScanStatus where
  id : String := ""
  status : String := ""
  total : Nat := 0
  completed : Nat := 0
  found : Nat := 0
  startedAt : Nat := 0
  completedAt : Option Nat := none
  error : String := ""
  targets : List String := []
  templateIDs : List String := []
deriving Repr, DecidableEq

/-- `StopScan`: look the job up; if absent report the error, otherwise
cancel and unconditionally overwrite status and completion time.  The
scanner's job map is embedded as a function. -/
def StopScan (scans : String → Option ScanStatus) (scanID : String) (now : Nat) :
    Except String (String → Option ScanStatus) :=
  match scans scanID with
  | none => Except.error ("扫描任务不存在: " ++ scanID)
  | some st =>
      Except.ok (fun k =>
        if k = scanID then some { st with status := "stopped", completedAt := some now }
        else scans k)

/-- Read a job back out of a `StopScan` result (`none` when the call
errored or the job is absent). -/
def stoppedJob (r : Except String (String → Option ScanStatus)) (k : String) :
    Option ScanStatus :=
  match r with
  | Except.error _ => none
  | Except.ok f => f k

/-- The found-increment lock section of `runRealScan` (runs only when a
pair's template matched). -/
def incFound (s : ScanStatus) : ScanStatus :=
  { s with found := s.found + 1 }

/-- The completed-update lock section of `runRealScan`: publishes the
loop-local pair counter. -/
def setCompleted (s : ScanStatus) (c : Nat) : ScanStatus :=
  { s with completed := c }

/-- The terminal lock section after the loop exhausts all pairs. -/
def markCompleted (now : Nat) (s : ScanStatus) : ScanStatus :=
  { s with status := "completed", completedAt := some now }

/-- The lock section taken when the cancellation context fires at the top
of a pair iteration. -/
def markStopped (now : Nat) (s : ScanStatus) : ScanStatus :=
  { s with status := "stopped", completedAt := some now }

/-- Observable snapshots of `runRealScan` after the job registers in
state `s`.  `outcomes` records, pair by pair, whether `executeTemplate`
returned a result; `cancelAt = some k` means the cancellation token is
observed at the top of pair `k`'s iteration; `n` is the loop-local
`completed` counter on entry.  A matching pair publishes the found
increment in one lock section and the completed counter in a later one,
exactly as in the source. -/
def runStates (now : Nat) (cancelAt : Option Nat) :
    Nat → ScanStatus → List Bool → List ScanStatus
  | _, s, [] => [markCompleted now s]
  | n, s, b :: rest =>
    if cancelAt = some n then [markStopped now s]
    else
      let s1 := if b then incFound s else s
      let s2 := setCompleted s1 (n + 1)
      (if b then [s1, s2] else [s2]) ++ runStates now cancelAt (n + 1) s2 rest

/-! ## Probe library (poc package)

`Manager` holds three Go maps behind one RW lock; each exported operation
is one critical section, so the library is embedded as pure functions on
a `ManagerState`.  The filesystem is a record of files and directories;
`gopkg.in/yaml.v3`'s unmarshal and marshal are abstract parameters (the
claims never depend on their internals, only on how the manager composes
them). -/

/-- `models.POCTemplate` (time values as `Nat` stamps). -/
structure POCTemplate where
  id : String := ""
  name : String := ""
  author : String := ""
  severity : String := ""
  description : String := ""
  reference : List String := []
  tags : List String := []
  category : String := ""
  content : String := ""
  filePath : String := ""
  createdAt : Nat := 0
  updatedAt : Nat := 0
deriving Repr, DecidableEq

/-- The `info` block of the `NucleiTemplate` YAML shape. -/
structure NucleiInfo where
  name : String := ""
  author : String := ""
  severity : String := ""
  description : String := ""
  reference : List String := []
  tags : String := ""
deriving Repr, DecidableEq

/-- The `NucleiTemplate` YAML shape the manager unmarshals into. -/
structure NucleiTemplate where
  id : String := ""
  info : NucleiInfo := {}
deriving Repr, DecidableEq

/-- The map `ToYAML` hands to `yaml.Marshal`: `id` plus the `info` block,
tags re-joined with commas, `reference` present only when non-empty. -/
structure MarshalData where
  id : String
  name : String
  author : String
  severity : String
  description : String
  tags : String
  reference : Option (List String)
deriving Repr, DecidableEq

/-- A file of the modelled filesystem. -/
structure FSFile where
  path : String
  content : String
  mtime : Nat
deriving Repr, DecidableEq

/-- The modelled filesystem: regular files plus existing directories.
`filepath.Walk` visits files in lexical order; the `files` list order
stands in for that order. -/
structure FS where
  files : List FSFile := []
  dirs : List String := []
deriving Repr, DecidableEq

/-- The manager's in-memory state: the three maps and the loaded flag. -/
structure ManagerState where
  templatesDir : String
  cache : String → Option POCTemplate
  categoryIndex : String → Option (List String)
  severityIndex : String → Option (List String)
  loaded : Bool

/-- A freshly constructed manager before any load. -/
def emptyManager (dir : String) : ManagerState :=
  { templatesDir := dir, cache := fun _ => none, categoryIndex := fun _ => none,
    severityIndex := fun _ => none, loaded := false }

/-- Go map store `m[k] = v`. -/
def mapSet {α : Type} (m : String → Option α) (k : String) (v : α) :
    String → Option α :=
  fun x => if x = k then some v else m x

/-- Go map `delete(m, k)`. -/
def mapDel {α : Type} (m : String → Option α) (k : String) :
    String → Option α :=
  fun x => if x = k then none else m x

/-- Go `m[k] = append(m[k], v)` on an index map (missing key reads as
nil). -/
def idxAppend (m : String → Option (List String)) (k v : String) :
    String → Option (List String) :=
  mapSet m k ((m k).getD [] ++ [v])

/-- Character-level split on a single-character separator; every
separator the source splits on ("/", ".", ",", "\n") is one character.
Mirrors `strings.Split`: separators delimit (possibly empty) fields and
the empty string yields one empty field. -/
def splitOnCharAux (sep : Char) : List Char → List Char → List (List Char)
  | [], acc => [acc.reverse]
  | c :: cs, acc =>
    if c = sep then acc.reverse :: splitOnCharAux sep cs []
    else splitOnCharAux sep cs (c :: acc)

/-- `strings.Split` with a one-character separator. -/
def splitOnChar (s : String) (sep : Char) : List String :=
  (splitOnCharAux sep s.toList []).map String.mk

/-- String length, via the character list. -/
def strLength (s : String) : Nat := s.toList.length

/-- `strings.HasPrefix`. -/
def strStartsWith (s pre : String) : Bool := pre.toList.isPrefixOf s.toList

/-- `strings.HasSuffix`. -/
def strEndsWith (s suf : String) : Bool :=
  suf.toList.reverse.isPrefixOf s.toList.reverse

/-- Drop the first `n` characters. -/
def strDrop (s : String) (n : Nat) : String := String.mk (s.toList.drop n)

/-- `strings.TrimSpace`: strip whitespace from both ends. -/
def trimChars (s : String) : String :=
  String.mk (((s.toList.dropWhile Char.isWhitespace).reverse.dropWhile
    Char.isWhitespace).reverse)

/-- `filepath.Join` with "/" as separator (paths in the modelled states
are already clean). -/
def pathJoin (a b : String) : String := a ++ "/" ++ b

/-- `filepath.Base`: the last path component. -/
def baseName (p : String) : String :=
  (splitOnChar p '/').getLastD ""

/-- `filepath.Ext`: from the final dot of the final component, or "". -/
def extName (p : String) : String :=
  let parts := splitOnChar (baseName p) '.'
  if parts.length ≤ 1 then "" else "." ++ parts.getLastD ""

/-- `strings.TrimSuffix`. -/
def trimSuffix (s suf : String) : String :=
  if strEndsWith s suf then String.mk (s.toList.take (s.toList.length - suf.toList.length))
  else s

/-- `filepath.Rel(root, p)` for the states we model: strip the root
prefix. -/
def relPath (root p : String) : String :=
  if strStartsWith p (root ++ "/") then strDrop p (strLength (root ++ "/")) else p

/-- First-occurrence replacement over character lists
(`strings.Replace(s, pat, rep, 1)`). -/
def replaceFirstAux (pat rep : List Char) : List Char → List Char
  | [] => if pat.isEmpty then rep else []
  | c :: cs =>
    if pat.isPrefixOf (c :: cs) then rep ++ (c :: cs).drop pat.length
    else c :: replaceFirstAux pat rep cs

/-- `strings.Replace(s, pat, rep, 1)`. -/
def replaceFirst (s pat rep : String) : String :=
  String.mk (replaceFirstAux pat.toList rep.toList s.toList)

/-- `parseYAMLContent`, with `yaml.Unmarshal` abstracted as `u`: a hard
failure when unmarshalling fails or the `id` field is empty; otherwise
the template with the raw text kept in `content` and a comma-split,
trimmed tag list. -/
def parseYAMLContent (u : String → Option NucleiTemplate) (content : String) :
    Option POCTemplate :=
  match u content with
  | none => none
  | some nt =>
    if nt.id = "" then none
    else
      let t : POCTemplate :=
        { id := nt.id, name := nt.info.name, author := nt.info.author,
          severity := nt.info.severity, description := nt.info.description,
          reference := nt.info.reference, content := content }
      some (if nt.info.tags ≠ "" then
              { t with tags := (splitOnChar nt.info.tags ',').map trimChars }
            else t)

/-- `ToYAML`, with `yaml.Marshal` abstracted as `mar`: a template that
still carries its raw text is exported verbatim; only an empty `content`
goes through the marshaller. -/
def toYAML (mar : MarshalData → String) (t : POCTemplate) : String :=
  if t.content ≠ "" then t.content
  else mar { id := t.id, name := t.name, author := t.author,
             severity := t.severity, description := t.description,
             tags := String.intercalate "," t.tags,
             reference := if t.reference.length > 0 then some t.reference else none }

/-- The first hundred lines handed to the metadata parser
(`bufio.Scanner` text rejoined). -/
def first100Lines (content : String) : String :=
  String.intercalate "\n" ((splitOnChar content '\n').take 100)

/-- `loadFileMetadata`: parse the first hundred lines; on failure fall
back to a template named after the file; blank the content; derive the
category from the relative path (at most three levels); stamp both times
with the file mtime. -/
def loadFileMetadata (u : String → Option NucleiTemplate)
    (dir path content : String) (mtime : Nat) : POCTemplate :=
  let stem := trimSuffix (baseName path) (extName path)
  let t0 := match parseYAMLContent u (first100Lines content) with
    | some t => t
    | none => { id := stem, name := stem }
  let t1 := { t0 with filePath := path, content := "" }
  let parts := splitOnChar (relPath dir path) '/'
  let t2 := if parts.length > 1 then
      { t1 with category := String.intercalate "/" (parts.take (min 3 (parts.length - 1))) }
    else t1
  { t2 with updatedAt := mtime, createdAt := mtime }

/-- Store a loaded template in the primary cache and both indices, with
the "未分类" and "info" defaults for an empty category or severity. -/
def indexTemplate (st : ManagerState) (t : POCTemplate) : ManagerState :=
  let cat := if t.category = "" then "未分类" else t.category
  let sev := if t.severity = "" then "info" else t.severity
  { st with cache := mapSet st.cache t.id t,
            categoryIndex := idxAppend st.categoryIndex cat t.id,
            severityIndex := idxAppend st.severityIndex sev t.id }

/-- `loadAllLazy`: reset all three maps, walk the tree indexing every
`.yaml`/`.yml` file's metadata, then publish the loaded flag. -/
def loadAllLazy (u : String → Option NucleiTemplate) (st : ManagerState)
    (fs : FS) : ManagerState :=
  let st0 := { st with cache := fun _ => none, categoryIndex := fun _ => none,
                       severityIndex := fun _ => none }
  let st1 := fs.files.foldl (fun acc f =>
      if strEndsWith f.path ".yaml" || strEndsWith f.path ".yml" then
        indexTemplate acc (loadFileMetadata u acc.templatesDir f.path f.content f.mtime)
      else acc) st0
  { st1 with loaded := true }

/-- `GetByID`: cache lookup; a record without content is completed from
its file on demand; the cache itself is not written. -/
def getByID (st : ManagerState) (fs : FS) (id : String) :
    Except String POCTemplate :=
  match st.cache id with
  | none => Except.error ("模板不存在: " ++ id)
  | some t =>
    if t.content = "" ∧ t.filePath ≠ "" then
      match fs.files.find? (fun f => f.path = t.filePath) with
      | none => Except.error ("读取文件失败: " ++ t.filePath)
      | some f => Except.ok { t with content := f.content }
    else Except.ok t

/-- `GetByCategory`: resolve the index bucket, then look each id up in
the cache. -/
def getByCategory (st : ManagerState) (category : String) : List POCTemplate :=
  match st.categoryIndex category with
  | none => []
  | some ids => ids.filterMap (fun id => st.cache id)

/-- `os.MkdirAll`: create the directory and its ancestors. -/
def mkdirAll (fs : FS) (dir : String) : FS :=
  let parts := splitOnChar dir '/'
  let anc := (List.range parts.length).map
    (fun i => String.intercalate "/" (parts.take (i + 1)))
  { fs with dirs := fs.dirs ++ anc.filter (fun d => !(fs.dirs.contains d)) }

/-- `os.WriteFile`: overwrite or create. -/
def fsWrite (fs : FS) (path content : String) (now : Nat) : FS :=
  if fs.files.any (fun f => f.path = path) then
    { fs with files := fs.files.map (fun f =>
        if f.path = path then { f with content := content, mtime := now } else f) }
  else { fs with files := fs.files ++ [{ path := path, content := content, mtime := now }] }

/-- `removeFromIndex`: drop the first occurrence of `id` from the `key`
bucket. -/
def removeIdOnce : List String → String → List String
  | [], _ => []
  | x :: xs, id => if x = id then xs else x :: removeIdOnce xs id

/-- `removeFromIndex` on the embedded index map. -/
def removeFromIndex (index : String → Option (List String)) (key id : String) :
    String → Option (List String) :=
  match index key with
  | none => index
  | some ids => mapSet index key (removeIdOnce ids id)

/-- `Save`: pick the target path (the stored `file_path`, else
`<root>/<category or custom>/<id>.yaml`, creating directories), fill an
empty content through `ToYAML`, write the file, store the full template
in the cache, and move the index entries when category or severity
changed.  Disk write errors are not modelled. -/
def save (mar : MarshalData → String) (now : Nat) (st : ManagerState) (fs : FS)
    (template : POCTemplate) : ManagerState × FS :=
  let old? := st.cache template.id
  let filePath := if template.filePath ≠ "" then template.filePath
    else pathJoin (pathJoin st.templatesDir
           (if template.category = "" then "custom" else template.category))
         (template.id ++ ".yaml")
  let fs := if template.filePath ≠ "" then fs
    else mkdirAll fs (pathJoin st.templatesDir
           (if template.category = "" then "custom" else template.category))
  let template := { template with filePath := filePath }
  let template := if template.content = "" then
      { template with content := toYAML mar template }
    else template
  let fs := fsWrite fs filePath template.content now
  let st := { st with cache := mapSet st.cache template.id template }
  let newCat := if template.category = "" then "未分类" else template.category
  let newSev := if template.severity = "" then "info" else template.severity
  match old? with
  | some oldT =>
    let oldCat := if oldT.category = "" then "未分类" else oldT.category
    let st := if oldCat ≠ newCat then
        { st with categoryIndex :=
            (idxAppend (removeFromIndex st.categoryIndex oldCat template.id)
              newCat template.id) }
      else st
    let oldSev := if oldT.severity = "" then "info" else oldT.severity
    let st := if oldSev ≠ newSev then
        { st with severityIndex :=
            (idxAppend (removeFromIndex st.severityIndex oldSev template.id)
              newSev template.id) }
      else st
    (st, fs)
  | none =>
    let st := { st with categoryIndex := idxAppend st.categoryIndex newCat template.id }
    let st := { st with severityIndex := idxAppend st.severityIndex newSev template.id }
    (st, fs)

/-- `Delete`: unlink the file and remove the record from all three
maps. -/
def deleteTemplate (st : ManagerState) (fs : FS) (id : String) :
    Except String (ManagerState × FS) :=
  match st.cache id with
  | none => Except.error ("模板不存在: " ++ id)
  | some t =>
    let fs := if t.filePath ≠ "" then
        { fs with files := fs.files.filter (fun f => f.path ≠ t.filePath) }
      else fs
    let cat := if t.category = "" then "未分类" else t.category
    let sev := if t.severity = "" then "info" else t.severity
    let st := { st with categoryIndex := removeFromIndex st.categoryIndex cat id }
    let st := { st with severityIndex := removeFromIndex st.severityIndex sev id }
    let st := { st with cache := mapDel st.cache id }
    Except.ok (st, fs)

/-- `CheckDuplicateName`: does any probe in the category (empty reads as
"未分类") carry this name? -/
def checkDuplicateName (st : ManagerState) (category name : String) : Bool :=
  let cat := if category = "" then "未分类" else category
  match st.categoryIndex cat with
  | none => false
  | some ids => ids.any (fun id =>
      match st.cache id with
      | some t => t.name == name
      | none => false)

/-- The suffix loop of `GenerateUniqueName`: try `base_i`, `base_(i+1)`,
… while fuel lasts; when the fuel (999 tries in the source) is exhausted,
fall back to the Unix timestamp suffix without any duplicate check. -/
def genFrom (st : ManagerState) (category base : String) (now : Nat) :
    Nat → Nat → String
  | _, 0 => base ++ "_" ++ toString now
  | i, fuel + 1 =>
    let newName := base ++ "_" ++ toString i
    if checkDuplicateName st category newName then
      genFrom st category base now (i + 1) fuel
    else newName

/-- `GenerateUniqueName`: the name itself when unused, else `_1` … `_999`
suffixes, else the timestamp fallback. -/
def generateUniqueName (st : ManagerState) (now : Nat) (category name : String) :
    String :=
  if checkDuplicateName st category name then genFrom st category name now 1 999
  else name

/-- The character set forbidden in category names. -/
def invalidChars : List Char := ['\\', ':', '*', '?', '"', '<', '>', '|']

/-- `strings.ContainsAny` over the forbidden set. -/
def containsAnyInvalid (s : String) : Bool :=
  s.toList.any (fun c => invalidChars.contains c)

/-- `os.Rename` of a directory tree: rewrite the directory entries and
the path prefix of every file under it. -/
def fsRenameDir (fs : FS) (oldDir newDir : String) : FS :=
  { files := fs.files.map (fun f =>
      if strStartsWith f.path (oldDir ++ "/") then
        { f with path := newDir ++ strDrop f.path (strLength oldDir) }
      else f),
    dirs := fs.dirs.map (fun d =>
      if d = oldDir then newDir
      else if strStartsWith d (oldDir ++ "/") then newDir ++ strDrop d (strLength oldDir)
      else d) }

/-- The in-place rewrite `RenameCategory` applies to an affected cached
template: new category, file path with the old directory prefix replaced
once. -/
def renamedTemplate (newName oldDir newDir : String) (t : POCTemplate) :
    POCTemplate :=
  { t with category := newName, filePath := replaceFirst t.filePath oldDir newDir }

/-- One step of the cache-rewrite loop of `RenameCategory`: when the id
is cached, store it back with the new category and the replaced path. -/
def renStep (newName oldDir newDir : String)
    (cache : String → Option POCTemplate) (id : String) :
    String → Option POCTemplate :=
  match cache id with
  | some t => mapSet cache id (renamedTemplate newName oldDir newDir t)
  | none => cache

/-- The success path of `RenameCategory` after all validations: rename
the tree on disk, move the index bucket keyed exactly `oldName`, and
rewrite category and file path of the ids it lists.  Probes whose
category is a deeper subpath of `oldName` sit in other buckets and are
not touched. -/
def renApply (st : ManagerState) (fs : FS) (oldName newName : String) :
    ManagerState × FS :=
  let oldDir := pathJoin st.templatesDir oldName
  let newDir := pathJoin st.templatesDir newName
  let fs' := fsRenameDir fs oldDir newDir
  match st.categoryIndex oldName with
  | none => (st, fs')
  | some ids =>
    let st := { st with categoryIndex :=
        (mapDel (mapSet st.categoryIndex newName ids) oldName) }
    let st := { st with cache := (ids.foldl (renStep newName oldDir newDir) st.cache) }
    (st, fs')

/-- `RenameCategory`: validate the new name, require the old directory to
exist and the new one not to, then apply the rename.  A failure of the
`os.Rename` call itself (for example a missing parent of the target
path) is not modelled. -/
def renameCategory (st : ManagerState) (fs : FS) (oldName newName : String) :
    Except String (ManagerState × FS) :=
  if oldName = "" ∨ newName = "" then Except.error "分类名称不能为空"
  else if oldName = "未分类" then Except.error "无法重命名此分类"
  else if containsAnyInvalid newName then Except.error "分类名称不能包含特殊字符"
  else if (splitOnChar newName '/').length > 3 then Except.error "分类最多支持三级"
  else if (splitOnChar newName '/').any (fun p => trimChars p = "") then
    Except.error "分类名称有空的一级"
  else if !(fs.dirs.contains (pathJoin st.templatesDir oldName)) then
    Except.error ("分类不存在: " ++ oldName)
  else if fs.dirs.contains (pathJoin st.templatesDir newName) then
    Except.error ("目标分类已存在: " ++ newName)
  else Except.ok (renApply st fs oldName newName)

/-- The state component of a successful `Except` result (the empty
manager on error; every use is guarded by a success hypothesis). -/
def okState (r : Except String (ManagerState × FS)) : ManagerState :=
  match r with
  | Except.ok x => x.1
  | Except.error _ => emptyManager ""

/-- The filesystem component of a successful `Except` result. -/
def okFS (r : Except String (ManagerState × FS)) : FS :=
  match r with
  | Except.ok x => x.2
  | Except.error _ => {}

/-! ## Concrete states and inputs used by the claim theorems -/

/-- The two matchers of the C1 counterexample: a passing status matcher
and a failing word matcher, in a list the probe author would mark
`matchers-condition: and`. -/
def msC1 : List Matcher :=
  [{ type := "status", status := [200] },
   { type := "word", words := ["nope"], condition := "and" }]

/-- The 200 response with body "hello" used against `msC1`. -/
def respC1 : Response := { statusCode := 200, headers := [] }

/-- A job that has already reached the terminal state `completed`. -/
def completedJobC2 : ScanStatus :=
  { id := "scan_1", status := "completed", total := 4, completed := 4, found := 2,
    startedAt := 10, completedAt := some 100 }

/-- A scanner holding exactly that terminal job. -/
def scansC2 : String → Option ScanStatus :=
  fun k => if k = "scan_1" then some completedJobC2 else none

/-- The job state right after `Start` registers a one-pair running scan. -/
def s0C3 : ScanStatus := { id := "scan_2", status := "running", total := 1 }

/-- An unmarshaller on which every input fails — the abstract stand-in
for YAML text `yaml.Unmarshal` rejects. -/
def uFail : String → Option NucleiTemplate := fun _ => none

/-- A template file whose text does not parse. -/
def fileC4 : FSFile := { path := "root/cat/bad.yaml", content := "### not yaml", mtime := 5 }

/-- A templates tree holding only that file. -/
def fsC4 : FS := { files := [fileC4], dirs := ["root", "root/cat"] }

/-- A marshaller stand-in (the claims below never reach it). -/
def marEmptyC5 : MarshalData → String := fun _ => ""

/-- A probe handed to `Save` with its raw text present. -/
def tC5 : POCTemplate := { id := "a", name := "A", category := "c", content := "id: a" }

/-- The probe living in subcategory `web/sqli`, stored under the `web`
directory tree. -/
def pC6 : POCTemplate :=
  { id := "p", name := "P", category := "web/sqli", filePath := "root/web/sqli/p.yaml" }

/-- A manager state holding `pC6`, indexed under its exact category. -/
def stC6 : ManagerState :=
  { templatesDir := "root", cache := mapSet (fun _ => none) "p" pC6,
    categoryIndex := mapSet (fun _ => none) "web/sqli" ["p"],
    severityIndex := fun _ => none, loaded := true }

/-- The matching on-disk tree. -/
def fsC6 : FS :=
  { files := [{ path := "root/web/sqli/p.yaml", content := "id: p", mtime := 1 }],
    dirs := ["root", "root/web", "root/web/sqli"] }

/-- A probe sitting exactly in category `c1`, for the C6 witness. -/
def qC6 : POCTemplate :=
  { id := "q", name := "Q", category := "c1", filePath := "root/c1/q.yaml" }

/-- Manager state for the C6 witness. -/
def stC6w : ManagerState :=
  { templatesDir := "root", cache := mapSet (fun _ => none) "q" qC6,
    categoryIndex := mapSet (fun _ => none) "c1" ["q"],
    severityIndex := fun _ => none, loaded := true }

/-- Filesystem for the C6 witness. -/
def fsC6w : FS :=
  { files := [{ path := "root/c1/q.yaml", content := "id: q", mtime := 1 }],
    dirs := ["root", "root/c1"] }

/-- A one-document unmarshaller for the C7 witness. -/
def uC7 : String → Option NucleiTemplate :=
  fun s => if s = "id: a" then some { id := "a" } else none

/-- A trivial marshaller for the C7 witness (never reached). -/
def marC7 : MarshalData → String := fun _ => ""

/-- The probe `uC7` parses out of "id: a". -/
def tC7 : POCTemplate := { id := "a", content := "id: a" }

/-- The Unix timestamp of the C9 scenario. -/
def tsC9 : Nat := 1700000000

/-- A category bucket in which the base name, all 999 numeric suffixes
and the timestamp-suffixed name are taken. -/
def idsC9 : List String :=
  "N" :: ((List.range 999).map (fun k => "N_" ++ toString (k + 1))) ++
    ["N_" ++ toString tsC9]

/-- A manager whose cache names every id after itself and whose category
`c` holds `idsC9`. -/
def stC9 : ManagerState :=
  { templatesDir := "root", cache := fun id => some { id := id, name := id },
    categoryIndex := fun c => if c = "c" then some idsC9 else none,
    severityIndex := fun _ => none, loaded := true }

/-! ## Theorems -/

/-- Collecting fold of `checkMatchers`, rewritten as a `filterMap`. -/
theorem foldl_collect (f : Matcher → Bool) (g : Matcher → String) :
    ∀ (ms : List Matcher) (acc : List String),
      ms.foldl (fun acc m => if f m then acc ++ [g m] else acc) acc
        = acc ++ ms.filterMap (fun m => if f m then some (g m) else none) := by
  intro ms
  induction ms with
  | nil => intro acc; simp
  | cons m t ih =>
    intro acc
    cases hf : f m <;> simp [List.foldl_cons, List.filterMap_cons, hf, ih]

/-- The boolean verdict of `checkMatchers` on a non-empty list is true
iff some matcher's verdict is true. -/
theorem checkMatchers_fst (ms : List Matcher) (resp : Response) (body : String)
    (h : ms ≠ []) :
    (checkMatchers ms resp body).1 = ms.any (fun m => matcherVerdict m resp body) := by
  have hne : ms.isEmpty = false := by
    cases ms with
    | nil => exact absurd rfl h
    | cons a t => rfl
  simp only [checkMatchers, hne, Bool.false_eq_true, if_false]
  rw [foldl_collect (fun m => (matcherEval m resp.statusCode body
        (formatHeaders resp.headers) (formatHeaders resp.headers ++ "\n" ++ body)).1)
      (fun m => (matcherEval m resp.statusCode body
        (formatHeaders resp.headers) (formatHeaders resp.headers ++ "\n" ++ body)).2)]
  simp only [List.nil_append]
  cases hany : ms.any (fun m => matcherVerdict m resp body) with
  | false =>
    have hall : ∀ m ∈ ms, (matcherEval m resp.statusCode body
        (formatHeaders resp.headers) (formatHeaders resp.headers ++ "\n" ++ body)).1 = false := by
      intro m hm
      have := List.any_eq_false.mp hany m hm
      simpa [matcherVerdict] using this
    have hnil : (ms.filterMap (fun m =>
        if (matcherEval m resp.statusCode body (formatHeaders resp.headers)
            (formatHeaders resp.headers ++ "\n" ++ body)).1 then
          some (matcherEval m resp.statusCode body (formatHeaders resp.headers)
            (formatHeaders resp.headers ++ "\n" ++ body)).2
        else none)) = [] := by
      rw [List.filterMap_eq_nil_iff]
      intro m hm
      simp [hall m hm]
    simp [hnil]
  | true =>
    obtain ⟨m, hm, hv⟩ := List.any_eq_true.mp hany
    have hv' : (matcherEval m resp.statusCode body (formatHeaders resp.headers)
        (formatHeaders resp.headers ++ "\n" ++ body)).1 = true := by
      simpa [matcherVerdict] using hv
    have hmem : ((matcherEval m resp.statusCode body (formatHeaders resp.headers)
        (formatHeaders resp.headers ++ "\n" ++ body)).2) ∈ (ms.filterMap (fun m =>
        if (matcherEval m resp.statusCode body (formatHeaders resp.headers)
            (formatHeaders resp.headers ++ "\n" ++ body)).1 then
          some (matcherEval m resp.statusCode body (formatHeaders resp.headers)
            (formatHeaders resp.headers ++ "\n" ++ body)).2
        else none)) := by
      apply List.mem_filterMap.mpr
      exact ⟨m, hm, by simp [hv']⟩
    have : (ms.filterMap (fun m =>
        if (matcherEval m resp.statusCode body (formatHeaders resp.headers)
            (formatHeaders resp.headers ++ "\n" ++ body)).1 then
          some (matcherEval m resp.statusCode body (formatHeaders resp.headers)
            (formatHeaders resp.headers ++ "\n" ++ body)).2
        else none)).isEmpty = false := by
      cases hfm : (ms.filterMap _) with
      | nil => rw [hfm] at hmem; simp at hmem
      | cons a t => rfl
    simp [this]

/-- C1 counterexample: on a 200 response with body "hello", the second
matcher of `msC1` fails and the spec's `and`-aggregation therefore says
"no match", yet the evaluator reports a match — it has no aggregation
condition input and fires on any single passing matcher. -/
theorem c1_and_aggregation_counterexample :
    (checkMatchers msC1 respC1 "hello").1 = true ∧
    matcherVerdict { type := "word", words := ["nope"], condition := "and" } respC1 "hello" = false ∧
    specAggregate "and" msC1 respC1 "hello" = false ∧
    msC1 ≠ [] := by
  refine ⟨rfl, rfl, ?_, by decide⟩
  decide

/-- C1 amended: the evaluator ignores any declared `matchers_condition`
(the parsed request carries none); for every matcher list it implements
exactly the `or` aggregation — a match iff some matcher passes, with the
empty list defaulting to "status is 200". -/
theorem c1_checkMatchers_is_or_aggregation (ms : List Matcher) (resp : Response)
    (body : String) :
    (checkMatchers ms resp body).1 = specAggregate "or" ms resp body := by
  cases hms : ms with
  | nil =>
    simp only [checkMatchers, specAggregate, List.isEmpty_nil, if_true]
    by_cases h : resp.statusCode = 200 <;> simp [h]
  | cons m t =>
    rw [checkMatchers_fst (m :: t) resp body (by simp)]
    simp [specAggregate]

/-- C8: the empty matcher list matches exactly the 200 responses. -/
theorem c8_empty_matchers_iff_status200 (resp : Response) (body : String) :
    (checkMatchers [] resp body).1 = true ↔ resp.statusCode = 200 := by
  simp only [checkMatchers, List.isEmpty_nil, if_true]
  by_cases h : resp.statusCode = 200 <;> simp [h]

/-- C10: a word matcher with condition `and` and no words is vacuously
true whatever the part selector, the response or the body, and a list
holding only that matcher makes the probe fire on any response. -/
theorem c10_empty_word_and_always_fires (part : String) (resp : Response)
    (body : String) :
    (checkMatchers [{ type := "word", words := [], condition := "and", part := part }] resp body).1 = true := by
  rfl

/-- C2: `StopScan` has no terminal-state guard (unlike the scanner's
`Stop`, which only touches `running` jobs): called on a job already in
the terminal state `completed`, it overwrites the status with `stopped`
and refreshes `completed_at` — a transition out of a terminal state. -/
theorem c2_stopScan_mutates_terminal_job :
    completedJobC2.status = "completed" ∧
    completedJobC2.completedAt = some 100 ∧
    stoppedJob (StopScan scansC2 "scan_1" 200) "scan_1" =
      some { completedJobC2 with status := "stopped", completedAt := some 200 } := by
  refine ⟨rfl, rfl, rfl⟩

/-- C3 counterexample: in the observable trace of a scan whose single
pair matches, the snapshot published by the found-increment lock section
has `found = 1` while `completed = 0` — `get_status` can observe
`found > completed`. -/
theorem c3_found_exceeds_completed_counterexample :
    incFound s0C3 ∈ s0C3 :: runStates 7 none 0 s0C3 [true] ∧
    (incFound s0C3).completed < (incFound s0C3).found := by
  decide

/-- The trace of `runRealScan` is never empty: it always ends in a
terminal snapshot. -/
theorem runStates_ne_nil (now : Nat) (cancelAt : Option Nat) :
    ∀ (o : List Bool) (n : Nat) (s : ScanStatus),
      runStates now cancelAt n s o ≠ [] := by
  intro o
  induction o with
  | nil => intro n s; simp [runStates]
  | cons b rest ih =>
    intro n s
    simp only [runStates]
    split
    · simp
    · simp only [ne_eq, List.append_eq_nil]
      intro ⟨_, h2⟩
      exact ih _ _ h2

/-- C3 amended: along every observable trace of `runRealScan` started
with `found ≤ completed`, every snapshot satisfies
`found ≤ completed + 1` (the excess occurring only between a matching
pair's found-increment and its completed-increment), and the final —
terminal — snapshot satisfies `found ≤ completed`. -/
theorem c3_found_le_completed_plus_one (now : Nat) (cancelAt : Option Nat)
    (outcomes : List Bool) (n : Nat) (s : ScanStatus)
    (hfc : s.found ≤ s.completed) (hn : s.completed = n) :
    (∀ t ∈ runStates now cancelAt n s outcomes, t.found ≤ t.completed + 1) ∧
    (∀ t, (runStates now cancelAt n s outcomes).getLast? = some t →
      t.found ≤ t.completed) := by
  induction outcomes generalizing n s with
  | nil =>
    constructor
    · intro t ht
      simp only [runStates, List.mem_singleton] at ht
      subst ht
      simp only [markCompleted]
      omega
    · intro t ht
      simp only [runStates, List.getLast?_singleton, Option.some_inj] at ht
      subst ht
      simp only [markCompleted]
      omega
  | cons b rest ih =>
    by_cases hc : cancelAt = some n
    · constructor
      · intro t ht
        simp only [runStates, hc, if_true] at ht
        simp only [List.mem_singleton] at ht
        subst ht
        simp only [markStopped]
        omega
      · intro t ht
        simp only [runStates, hc, if_true] at ht
        simp only [List.getLast?_singleton, Option.some_inj] at ht
        subst ht
        simp only [markStopped]
        omega
    · have hs2f : (setCompleted (if b then incFound s else s) (n + 1)).found ≤
          (setCompleted (if b then incFound s else s) (n + 1)).completed := by
        cases b <;> simp only [setCompleted, incFound, Bool.false_eq_true,
          ite_true, ite_false] <;> omega
      have hs2c : (setCompleted (if b then incFound s else s) (n + 1)).completed = n + 1 := rfl
      obtain ⟨ih1, ih2⟩ := ih (n + 1) (setCompleted (if b then incFound s else s) (n + 1)) hs2f hs2c
      constructor
      · intro t ht
        simp only [runStates, hc, if_false] at ht
        rw [List.mem_append] at ht
        rcases ht with ht | ht
        · cases b with
          | false =>
            simp only [Bool.false_eq_true, ite_false, List.mem_singleton] at ht
            subst ht
            simp only [setCompleted]
            omega
          | true =>
            simp only [ite_true, List.mem_cons, List.mem_singleton,
              List.not_mem_nil, or_false] at ht
            rcases ht with ht | ht
            · subst ht
              simp only [incFound]
              omega
            · subst ht
              simp only [setCompleted, incFound]
              omega
        · exact ih1 t ht
      · intro t ht
        simp only [runStates, hc, if_false] at ht
        rw [List.getLast?_append_of_ne_nil _ (runStates_ne_nil now cancelAt rest (n + 1) _)] at ht
        exact ih2 t ht

/-- Witness for the amended C3 bound on a concrete two-pair scan. -/
theorem c3_found_le_completed_plus_one_witness :
    (∀ t ∈ runStates 7 none 0 s0C3 [true, false], t.found ≤ t.completed + 1) ∧
    (∀ t, (runStates 7 none 0 s0C3 [true, false]).getLast? = some t →
      t.found ≤ t.completed) :=
  c3_found_le_completed_plus_one 7 none [true, false] 0 s0C3 (by decide) (by decide)

/-- C4 counterexample: the initial load of a tree whose only file fails
to parse still indexes that file — the primary cache holds an entry
under the filename-derived id "bad" and the category index lists it —
although the parse yields no template. -/
theorem c4_unparseable_file_indexed_counterexample :
    parseYAMLContent uFail (first100Lines fileC4.content) = none ∧
    (loadAllLazy uFail (emptyManager "root") fsC4).cache "bad" =
      some { id := "bad", name := "bad", category := "cat", filePath := "root/cat/bad.yaml", createdAt := 5, updatedAt := 5 } ∧
    (loadAllLazy uFail (emptyManager "root") fsC4).categoryIndex "cat" = some ["bad"] := by
  refine ⟨rfl, rfl, rfl⟩

/-- C4 amended: the library does not refuse to index a file whose text
fails to parse; `loadFileMetadata` falls back to a template whose id (and
name) derive from the filename, and the initial load stores that record
in the cache. -/
theorem c4_unparseable_file_fallback_indexed (u : String → Option NucleiTemplate)
    (st : ManagerState) (f : FSFile) (ds : List String)
    (h1 : strEndsWith f.path ".yaml" = true)
    (h2 : parseYAMLContent u (first100Lines f.content) = none) :
    (loadAllLazy u st { files := [f], dirs := ds }).cache
        ((loadFileMetadata u st.templatesDir f.path f.content f.mtime).id) =
      some (loadFileMetadata u st.templatesDir f.path f.content f.mtime) ∧
    (loadFileMetadata u st.templatesDir f.path f.content f.mtime).id =
      trimSuffix (baseName f.path) (extName f.path) ∧
    (loadFileMetadata u st.templatesDir f.path f.content f.mtime).content = "" := by
  refine ⟨?_, ?_, ?_⟩
  · simp only [loadAllLazy, List.foldl_cons, List.foldl_nil, h1, Bool.true_or,
      if_true, indexTemplate, mapSet]
  · simp only [loadFileMetadata, h2]
    split <;> rfl
  · simp only [loadFileMetadata, h2]
    split <;> rfl

/-- Witness for the amended C4 on the concrete unparseable file. -/
theorem c4_unparseable_file_fallback_indexed_witness :
    (loadAllLazy uFail (emptyManager "root") { files := [fileC4], dirs := ["root", "root/cat"] }).cache
        ((loadFileMetadata uFail (emptyManager "root").templatesDir fileC4.path fileC4.content fileC4.mtime).id) =
      some (loadFileMetadata uFail (emptyManager "root").templatesDir fileC4.path fileC4.content fileC4.mtime) ∧
    (loadFileMetadata uFail (emptyManager "root").templatesDir fileC4.path fileC4.content fileC4.mtime).id =
      trimSuffix (baseName fileC4.path) (extName fileC4.path) ∧
    (loadFileMetadata uFail (emptyManager "root").templatesDir fileC4.path fileC4.content fileC4.mtime).content = "" :=
  c4_unparseable_file_fallback_indexed uFail (emptyManager "root") fileC4
    ["root", "root/cat"] (by rfl) (by rfl)

/-- C5 counterexample: `Save` stores the full template — content
included — into the primary cache: after saving `tC5` the cached record
carries the non-empty raw text, contradicting "every cached record has an
empty content field after every operation". -/
theorem c5_save_caches_content_counterexample :
    (save marEmptyC5 50 (emptyManager "root") {} tC5).1.cache "a" =
      some { tC5 with filePath := "root/c/a.yaml" } ∧
    tC5.content = "id: a" := by
  refine ⟨rfl, rfl⟩

/-- A metadata load always blanks the content field. -/
theorem loadFileMetadata_content (u : String → Option NucleiTemplate)
    (dir path content : String) (mtime : Nat) :
    (loadFileMetadata u dir path content mtime).content = "" := by
  simp only [loadFileMetadata]
  split <;> rfl

/-- Cache-content invariant of the load fold: starting from a state whose
cached records all have empty content, every record cached by the walk
has empty content. -/
theorem loadFold_content (u : String → Option NucleiTemplate) :
    ∀ (files : List FSFile) (acc : ManagerState),
      (∀ id t, acc.cache id = some t → t.content = "") →
      ∀ id t,
        (files.foldl (fun acc f =>
          if strEndsWith f.path ".yaml" || strEndsWith f.path ".yml" then
            indexTemplate acc (loadFileMetadata u acc.templatesDir f.path f.content f.mtime)
          else acc) acc).cache id = some t → t.content = "" := by
  intro files
  induction files with
  | nil => intro acc h; simpa using h
  | cons f rest ih =>
    intro acc h
    simp only [List.foldl_cons]
    apply ih
    intro id t hid
    split at hid
    · simp only [indexTemplate, mapSet] at hid
      by_cases he : id = (loadFileMetadata u acc.templatesDir f.path f.content f.mtime).id
      · rw [if_pos he] at hid
        cases hid
        exact loadFileMetadata_content u acc.templatesDir f.path f.content f.mtime
      · rw [if_neg he] at hid
        exact h id t hid
    · exact h id t hid

/-- C5 amended: the initial load caches only blank-content metadata and
`get_by_id` never writes the cache (it returns a copy), but `save` is the
exception the claim misses: it stores the saved template, content and
all, into the cache; `delete` only removes entries. -/
theorem c5_cache_content_amended :
    (∀ (u : String → Option NucleiTemplate) (st : ManagerState) (fs : FS)
        (id : String) (t : POCTemplate),
        (loadAllLazy u st fs).cache id = some t → t.content = "") ∧
    (∀ (mar : MarshalData → String) (now : Nat) (st : ManagerState) (fs : FS)
        (t : POCTemplate), t.content ≠ "" →
        (save mar now st fs t).1.cache t.id =
          some { t with filePath := (if t.filePath ≠ "" then t.filePath else pathJoin (pathJoin st.templatesDir (if t.category = "" then "custom" else t.category)) (t.id ++ ".yaml")) }) ∧
    (∀ (st : ManagerState) (fs : FS) (id : String) (r : ManagerState × FS),
        deleteTemplate st fs id = Except.ok r →
        ∀ i, r.1.cache i = none ∨ r.1.cache i = st.cache i) := by
  refine ⟨?_, ?_, ?_⟩
  · intro u st fs id t h
    simp only [loadAllLazy] at h
    apply loadFold_content u fs.files _ _ id t h
    intro id' t' h'
    simp at h'
  · intro mar now st fs t ht
    by_cases hfp : t.filePath ≠ ""
    · simp only [save, hfp, if_true]
      rw [if_neg ht]
      cases hold : st.cache t.id with
      | none => simp only [hold]; simp [mapSet]
      | some oldT =>
        simp only [hold]
        simp [apply_ite ManagerState.cache, mapSet]
    · simp only [save, hfp, if_false]
      rw [if_neg ht]
      cases hold : st.cache t.id with
      | none => simp only [hold]; simp [mapSet]
      | some oldT =>
        simp only [hold]
        simp [apply_ite ManagerState.cache, mapSet]
  · intro st fs id r h i
    cases hc : st.cache id with
    | none => simp [deleteTemplate, hc] at h
    | some t =>
      simp only [deleteTemplate, hc, Except.ok.injEq] at h
      subst h
      by_cases hi : i = id
      · left; simp [mapDel, hi]
      · right; simp [mapDel, hi]

/-- Witness for the amended C5: saving `tC5` stores its full content. -/
theorem c5_cache_content_amended_witness :
    (save marEmptyC5 50 (emptyManager "root") {} tC5).1.cache tC5.id =
      some { tC5 with filePath := (if tC5.filePath ≠ "" then tC5.filePath else pathJoin (pathJoin (emptyManager "root").templatesDir (if tC5.category = "" then "custom" else tC5.category)) (tC5.id ++ ".yaml")) } :=
  c5_cache_content_amended.2.1 marEmptyC5 50 (emptyManager "root") {} tC5 (by decide)

/-- C6 counterexample: renaming `web` to `webapp` succeeds and moves the
whole tree on disk, yet probe `p` — stored under the renamed directory —
keeps category `web/sqli` and the old (now dangling) file path; it is not
rewritten, because only the index bucket keyed exactly `web` is
processed. -/
theorem c6_rename_subcategory_counterexample :
    renameCategory stC6 fsC6 "web" "webapp" = Except.ok (renApply stC6 fsC6 "web" "webapp") ∧
    (renApply stC6 fsC6 "web" "webapp").1.cache "p" = some pC6 ∧
    pC6.category = "web/sqli" ∧
    pC6.filePath = "root/web/sqli/p.yaml" ∧
    (renApply stC6 fsC6 "web" "webapp").2.files.map FSFile.path = ["root/webapp/sqli/p.yaml"] ∧
    getByCategory (renApply stC6 fsC6 "web" "webapp").1 "web/sqli" = [pC6] := by
  refine ⟨rfl, rfl, rfl, rfl, rfl, rfl⟩

/-- Successful `renameCategory` calls pass both directory checks and
return exactly `renApply`. -/
theorem renameCategory_ok_elim (st : ManagerState) (fs : FS)
    (oldName newName : String) (r : ManagerState × FS)
    (h : renameCategory st fs oldName newName = Except.ok r) :
    fs.dirs.contains (pathJoin st.templatesDir oldName) = true ∧
    fs.dirs.contains (pathJoin st.templatesDir newName) = false ∧
    r = renApply st fs oldName newName := by
  simp only [renameCategory] at h
  split_ifs at h with h1 h2 h3 h4 h5 h6 h7
  refine ⟨by simpa using h6, by simpa using h7, ?_⟩
  injection h with h9
  exact h9.symm

/-- The cache-rewrite fold leaves ids outside the bucket untouched. -/
theorem renFold_not_mem (newName oldDir newDir : String) :
    ∀ (ids : List String) (cache : String → Option POCTemplate) (x : String),
      x ∉ ids →
      (ids.foldl (renStep newName oldDir newDir) cache) x = cache x := by
  intro ids
  induction ids with
  | nil => intro cache x _; rfl
  | cons a rest ih =>
    intro cache x hx
    simp only [List.foldl_cons]
    have hxa : x ≠ a := fun he => hx (he ▸ List.mem_cons_self a rest)
    have hxrest : x ∉ rest := fun hr => hx (List.mem_cons_of_mem a hr)
    rw [ih _ x hxrest]
    simp only [renStep]
    cases hca : cache a with
    | none => rfl
    | some t => simp [mapSet, hxa]

/-- The cache-rewrite fold rewrites each cached id of a duplicate-free
bucket exactly once. -/
theorem renFold_mem (newName oldDir newDir : String) :
    ∀ (ids : List String) (cache : String → Option POCTemplate)
      (id : String) (t : POCTemplate),
      ids.Nodup → id ∈ ids → cache id = some t →
      (ids.foldl (renStep newName oldDir newDir) cache) id =
        some (renamedTemplate newName oldDir newDir t) := by
  intro ids
  induction ids with
  | nil => intro cache id t _ hmem _; exact absurd hmem (List.not_mem_nil id)
  | cons a rest ih =>
    intro cache id t hnd hmem hc
    simp only [List.foldl_cons]
    rcases List.mem_cons.mp hmem with he | hr
    · subst he
      have hna : id ∉ rest := (List.nodup_cons.mp hnd).1
      rw [renFold_not_mem _ _ _ rest _ id hna]
      simp only [renStep, hc]
      simp [mapSet]
    · have hia : id ≠ a := fun he => (List.nodup_cons.mp hnd).1 (he ▸ hr)
      apply ih _ id t (List.nodup_cons.mp hnd).2 hr
      simp only [renStep]
      cases hca : cache a with
      | none => exact hc
      | some ta => simp [mapSet, hia, hc]

/-- C6 amended: `rename_category(old, new)` fails when the target
directory exists; on success it empties `get_by_category(old)`, moves the
bucket keyed exactly `old` to `new`, and rewrites category and file path
of precisely the probes of that bucket — probes in strict subcategories
of `old` are moved on disk but their cached category and file path are
left stale. -/
theorem c6_renameCategory_amended :
    (∀ (st : ManagerState) (fs : FS) (oldName newName : String),
        ¬(oldName = "" ∨ newName = "") → oldName ≠ "未分类" →
        containsAnyInvalid newName = false →
        (splitOnChar newName '/').length ≤ 3 →
        (splitOnChar newName '/').any (fun p => trimChars p = "") = false →
        fs.dirs.contains (pathJoin st.templatesDir oldName) = true →
        fs.dirs.contains (pathJoin st.templatesDir newName) = true →
        renameCategory st fs oldName newName =
          Except.error ("目标分类已存在: " ++ newName)) ∧
    (∀ (st : ManagerState) (fs : FS) (oldName newName : String)
        (r : ManagerState × FS) (ids : List String),
        renameCategory st fs oldName newName = Except.ok r →
        st.categoryIndex oldName = some ids →
        r.1.categoryIndex oldName = none ∧
        r.1.categoryIndex newName = some ids ∧
        (ids.Nodup → ∀ id ∈ ids, ∀ t, st.cache id = some t →
          r.1.cache id = some (renamedTemplate newName (pathJoin st.templatesDir oldName) (pathJoin st.templatesDir newName) t))) ∧
    (∀ (st : ManagerState) (fs : FS) (oldName newName : String)
        (r : ManagerState × FS),
        renameCategory st fs oldName newName = Except.ok r →
        getByCategory r.1 oldName = []) := by
  refine ⟨?_, ?_, ?_⟩
  · intro st fs oldName newName h1 h2 h3 h4 h5 h6 h7
    simp only [renameCategory, h1, if_false]
    rw [if_neg h2, if_neg (by simp [h3]), if_neg (by omega),
      if_neg (by simp [h5]), if_neg (by simpa using h6), if_pos h7]
  · intro st fs oldName newName r ids h hidx
    obtain ⟨hold, hnew, hr⟩ := renameCategory_ok_elim st fs oldName newName r h
    have hne : newName ≠ oldName := by
      intro he
      rw [he] at hnew
      rw [hold] at hnew
      cases hnew
    subst hr
    simp only [renApply, hidx]
    refine ⟨by simp [mapDel], by simp [mapDel, mapSet, hne], ?_⟩
    intro hnd id hid t hc
    exact renFold_mem _ _ _ ids st.cache id t hnd hid hc
  · intro st fs oldName newName r h
    obtain ⟨hold, hnew, hr⟩ := renameCategory_ok_elim st fs oldName newName r h
    subst hr
    simp only [renApply]
    cases hidx : st.categoryIndex oldName with
    | none => simp [getByCategory, hidx]
    | some ids => simp [getByCategory, mapDel]

/-- Witness for the amended C6: a successful rename of `c1` to `c2`
moves the bucket and rewrites the probe stored exactly under `c1`. -/
theorem c6_renameCategory_amended_witness :
    (renApply stC6w fsC6w "c1" "c2").1.categoryIndex "c1" = none ∧
    (renApply stC6w fsC6w "c1" "c2").1.categoryIndex "c2" = some ["q"] ∧
    ((["q"] : List String).Nodup → ∀ id ∈ (["q"] : List String), ∀ t, stC6w.cache id = some t →
      (renApply stC6w fsC6w "c1" "c2").1.cache id = some (renamedTemplate "c2" (pathJoin stC6w.templatesDir "c1") (pathJoin stC6w.templatesDir "c2") t)) :=
  c6_renameCategory_amended.2.1 stC6w fsC6w "c1" "c2"
    (renApply stC6w fsC6w "c1" "c2") ["q"] rfl rfl

/-- C7: parse–serialize round trip.  A successfully parsed probe keeps
the raw text in `content`, and `ToYAML` exports a template with non-empty
content verbatim, so serializing the parsed probe returns the original
text and re-parsing it yields the same probe.  The hypothesis on `u`
captures `yaml.Unmarshal` of empty input: it yields the zero value, whose
`id` is empty. -/
theorem c7_parse_serialize_roundtrip (u : String → Option NucleiTemplate)
    (mar : MarshalData → String) (content : String) (t : POCTemplate)
    (hu : ∀ nt, u "" = some nt → nt.id = "")
    (h : parseYAMLContent u content = some t) :
    toYAML mar t = content ∧ parseYAMLContent u (toYAML mar t) = some t := by
  have hcontent : t.content = content := by
    simp only [parseYAMLContent] at h
    cases hcu : u content with
    | none => rw [hcu] at h; cases h
    | some nt =>
      rw [hcu] at h
      dsimp only at h
      by_cases hid : nt.id = ""
      · rw [if_pos hid] at h; cases h
      · rw [if_neg hid] at h
        injection h with h2
        subst h2
        by_cases htags : nt.info.tags ≠ "" <;> simp [htags]
  have hne : content ≠ "" := by
    intro he
    subst he
    simp only [parseYAMLContent] at h
    cases hcu : u "" with
    | none => rw [hcu] at h; cases h
    | some nt =>
      rw [hcu] at h
      dsimp only at h
      rw [if_pos (hu nt hcu)] at h
      cases h
  have hy : toYAML mar t = content := by
    rw [toYAML, if_pos]
    · exact hcontent
    · rw [hcontent]; exact hne
  exact ⟨hy, by rw [hy]; exact h⟩

/-- Witness for C7 on a concrete parse. -/
theorem c7_parse_serialize_roundtrip_witness :
    toYAML marC7 tC7 = "id: a" ∧
    parseYAMLContent uC7 (toYAML marC7 tC7) = some tC7 :=
  c7_parse_serialize_roundtrip uC7 marC7 "id: a" tC7
    (fun nt h => by simp [uC7] at h) rfl

/-- In `stC9`, the duplicate check over category `c` is membership of the
name in `idsC9`. -/
theorem dupC9_of_mem {name : String} (h : name ∈ idsC9) :
    checkDuplicateName stC9 "c" name = true := by
  have he : checkDuplicateName stC9 "c" name = idsC9.any (fun id => id == name) := rfl
  rw [he, List.any_eq_true]
  exact ⟨name, h, by simp⟩

/-- Every numeric suffix between 1 and 999 is taken in `idsC9`. -/
theorem memC9_num {j : Nat} (h1 : 1 ≤ j) (h2 : j ≤ 999) :
    ("N_" ++ toString j) ∈ idsC9 := by
  have hm : ("N_" ++ toString j) ∈ (List.range 999).map (fun k => "N_" ++ toString (k + 1)) := by
    apply List.mem_map.mpr
    refine ⟨j - 1, List.mem_range.mpr (by omega), ?_⟩
    rw [Nat.sub_add_cancel h1]
  exact List.mem_cons_of_mem _ (List.mem_append_left _ hm)

/-- The suffix loop returns the timestamp fallback when every tried
suffix is a duplicate. -/
theorem genFrom_exhaust (st : ManagerState) (cat base : String) (now : Nat) :
    ∀ (fuel i : Nat),
      (∀ j, i ≤ j → j < i + fuel →
        checkDuplicateName st cat (base ++ "_" ++ toString j) = true) →
      genFrom st cat base now i fuel = base ++ "_" ++ toString now := by
  intro fuel
  induction fuel with
  | zero => intro i _; rfl
  | succ k ih =>
    intro i h
    have hd := h i (Nat.le_refl i) (by omega)
    simp only [genFrom, hd, if_true]
    exact ih (i + 1) (fun j hj1 hj2 => h j (by omega) (by omega))

/-- The suffix loop returns the first free suffix. -/
theorem genFrom_first (st : ManagerState) (cat base : String) (now : Nat) :
    ∀ (fuel i target : Nat), i ≤ target → target < i + fuel →
      (∀ j, i ≤ j → j < target →
        checkDuplicateName st cat (base ++ "_" ++ toString j) = true) →
      checkDuplicateName st cat (base ++ "_" ++ toString target) = false →
      genFrom st cat base now i fuel = base ++ "_" ++ toString target := by
  intro fuel
  induction fuel with
  | zero => intro i target h1 h2 _ _; omega
  | succ k ih =>
    intro i target h1 h2 hall htgt
    by_cases hit : i = target
    · subst hit
      simp only [genFrom, htgt, Bool.false_eq_true, if_false]
    · have hd := hall i (Nat.le_refl i) (by omega)
      simp only [genFrom, hd, if_true]
      exact ih (i + 1) target (by omega) (by omega)
        (fun j hj1 hj2 => hall j (by omega) hj2) htgt

/-- C9 counterexample: in `stC9` the base name and all 999 numeric
suffixes are taken, so `GenerateUniqueName` falls back to the
timestamp-suffixed name without re-checking it — and that name is
already in use in the category. -/
theorem c9_timestamp_fallback_collision_counterexample :
    generateUniqueName stC9 tsC9 "c" "N" = "N_" ++ toString tsC9 ∧
    checkDuplicateName stC9 "c" ("N_" ++ toString tsC9) = true := by
  constructor
  · have hbase : checkDuplicateName stC9 "c" "N" = true :=
      dupC9_of_mem (List.mem_cons_self _ _)
    simp only [generateUniqueName, hbase, if_true]
    apply genFrom_exhaust
    intro j hj1 hj2
    exact dupC9_of_mem (memC9_num hj1 (by omega))
  · exact dupC9_of_mem (List.mem_cons_of_mem _ (List.mem_append_right _ (List.mem_singleton.mpr rfl)))

/-- C9 amended: `unique_name` returns the name itself when unused, the
first unused numeric suffix `_1` … `_999` otherwise — in both cases a
name not in use — but when all 999 suffixes are taken it returns the
Unix-timestamp suffix without any duplicate check, so that fallback may
collide. -/
theorem c9_generateUniqueName_amended :
    (∀ (st : ManagerState) (now : Nat) (cat name : String),
        checkDuplicateName st cat name = false →
        generateUniqueName st now cat name = name) ∧
    (∀ (st : ManagerState) (now : Nat) (cat name : String) (i : Nat),
        1 ≤ i → i ≤ 999 →
        checkDuplicateName st cat name = true →
        (∀ j, 1 ≤ j → j < i →
          checkDuplicateName st cat (name ++ "_" ++ toString j) = true) →
        checkDuplicateName st cat (name ++ "_" ++ toString i) = false →
        generateUniqueName st now cat name = name ++ "_" ++ toString i) ∧
    (∀ (st : ManagerState) (now : Nat) (cat name : String),
        checkDuplicateName st cat name = true →
        (∀ j, 1 ≤ j → j ≤ 999 →
          checkDuplicateName st cat (name ++ "_" ++ toString j) = true) →
        generateUniqueName st now cat name = name ++ "_" ++ toString now) := by
  refine ⟨?_, ?_, ?_⟩
  · intro st now cat name h
    simp [generateUniqueName, h]
  · intro st now cat name i h1 h2 hdup hall hfree
    simp only [generateUniqueName, hdup, if_true]
    exact genFrom_first st cat name now 999 1 i h1 (by omega)
      (fun j hj1 hj2 => hall j hj1 hj2) hfree
  · intro st now cat name hdup hall
    simp only [generateUniqueName, hdup, if_true]
    exact genFrom_exhaust st cat name now 999 1
      (fun j hj1 hj2 => hall j hj1 (by omega))

/-- Witness for the amended C9: an unused name is returned as is. -/
theorem c9_generateUniqueName_amended_witness :
    generateUniqueName (emptyManager "root") 0 "c" "X" = "X" :=
  c9_generateUniqueName_amended.1 (emptyManager "root") 0 "c" "X" rfl

end SerenNP
